import Mathlib

/-!
Shallow embedding of the filtrum query-filter parsing core (Rust).

Strings are modelled as `List Char`. The Rust regex
`(\w+)(\[([a-z]+)])?(\[(\d+)])?` is matched unanchored with leftmost-first
semantics, which the function `captures` below reproduces. Numeric value
parsing (`u64`/`i32` `FromStr`) is modelled by `parseNat` on digit strings;
the generic results are parametric in the value parser, and concrete
theorems only use in-range digit inputs where the model is exact.
-/

deriving instance DecidableEq for Except

namespace Filtrum

/-- Mirrors `errors.rs`: `FilterParseError`. -/
inductive FilterParseError
  | FilterStructure
  | Value
  | UnknownFilter
deriving DecidableEq

/-- Mirrors `filter_id.rs`: `FilterId`. -/
inductive FilterId
  | Alone (id : List Char)
  | WithPrefix (pfx : List Char) (id : List Char)
  | WithPrefixAndAlias (pfx : List Char) (id : List Char) (als : List Char)
deriving DecidableEq

/-- Mirrors `FilterId::id` (the real field name). -/
def FilterId.id : FilterId → List Char
  | .Alone i => i
  | .WithPrefix _ i => i
  | .WithPrefixAndAlias _ i _ => i

/-- Mirrors `FilterId::key` (alias takes precedence, used for emission). -/
def FilterId.key : FilterId → List Char
  | .Alone i => i
  | .WithPrefix _ i => i
  | .WithPrefixAndAlias _ _ a => a

/-- Rust regex `\w` restricted to ASCII (all inputs considered are ASCII). -/
def isWordChar (c : Char) : Bool := c.isAlphanum || c == '_'

/-- Match the optional group `(\[(p+)\])?` at the head of `l`: on success
return the captured run and the remainder, else capture nothing and leave
`l` unconsumed. Greedy with no useful backtracking, like the Rust regex. -/
def bracketGroup (p : Char → Bool) (l : List Char) : Option (List Char) × List Char :=
  match l with
  | '[' :: rest =>
    let run := rest.takeWhile p
    let rest1 := rest.dropWhile p
    match rest1 with
    | ']' :: rest2 => if run = [] then (none, l) else (some run, rest2)
    | _ => (none, l)
  | _ => (none, l)

/-- Mirrors `regex.rs`: the first (leftmost) match of
`(\w+)(\[([a-z]+)])?(\[(\d+)])?` in the key, returning capture groups
1, 3 and 5 (field name, operator code, index). `none` when the key holds
no word character at all. The match is unanchored, exactly as
`Regex::captures` behaves in the source. -/
def captures : List Char → Option (List Char × Option (List Char) × Option (List Char))
  | [] => none
  | c :: rest =>
    if isWordChar c then
      let run := c :: rest.takeWhile isWordChar
      let rest1 := rest.dropWhile isWordChar
      let (op, rest2) := bracketGroup Char.isLower rest1
      let (idx, _) := bracketGroup Char.isDigit rest2
      some (run, op, idx)
    else captures rest

/-- Rust `str::split(sep)` on a character separator. -/
def splitChar (sep : Char) : List Char → List (List Char)
  | [] => [[]]
  | c :: rest =>
    if c = sep then [] :: splitChar sep rest
    else
      match splitChar sep rest with
      | [] => [[c]]
      | h :: t => (c :: h) :: t

/-- Rust `str::split_once(sep)`: split at the first occurrence of `sep`. -/
def splitOnce (sep : Char) : List Char → Option (List Char × List Char)
  | [] => none
  | c :: rest =>
    if c = sep then some ([], rest)
    else
      match splitOnce sep rest with
      | none => none
      | some (l, r) => some (c :: l, r)

/-- Digit-string model of Rust's integer `FromStr` (used for `u64`/`i32`
values at in-range, unsigned inputs; generic theorems are parametric in
the value parser). -/
def parseNat (l : List Char) : Option Nat :=
  if l = [] then none
  else if l.all Char.isDigit then
    some (l.foldl (fun acc c => acc * 10 + (c.toNat - 48)) 0)
  else none

/-- One iteration of the loop in `common.rs::from_str` over a `&`-separated
segment: split on the first `=` (missing `=` is a structural error), run the
regex on the key (no match is a structural error), default the operator to
`eq`, silently skip when the field name differs from `search_id`, otherwise
parse the value (failure is a value error) and decode. -/
def processPart {V T : Type} (parseV : List Char → Option V)
    (decode : List Char → V → Except FilterParseError T)
    (searchId part : List Char) : Except FilterParseError (Option T) :=
  match splitOnce '=' part with
  | none => .error .FilterStructure
  | some (key, rawVal) =>
    match captures key with
    | none => .error .FilterStructure
    | some (fieldName, op, _) =>
      if fieldName = searchId then
        match parseV rawVal with
        | none => .error .Value
        | some v =>
          match decode (op.getD ('e' :: ['q'])) v with
          | .error e => .error e
          | .ok t => .ok (some t)
      else .ok none

/-- The loop of `common.rs::from_str`: process segments left to right,
aborting at the first error, appending decoded filters in encounter order. -/
def fromStrParts {V T : Type} (parseV : List Char → Option V)
    (decode : List Char → V → Except FilterParseError T)
    (searchId : List Char) : List (List Char) → Except FilterParseError (List T)
  | [] => .ok []
  | p :: ps =>
    match processPart parseV decode searchId p with
    | .error e => .error e
    | .ok none => fromStrParts parseV decode searchId ps
    | .ok (some t) =>
      match fromStrParts parseV decode searchId ps with
      | .error e => .error e
      | .ok rest => .ok (t :: rest)

namespace Common

/-- Mirrors `common.rs::from_str`: empty input yields the empty list, else
split on `&` and run the per-segment loop. -/
def from_str {V T : Type} (parseV : List Char → Option V)
    (decode : List Char → V → Except FilterParseError T)
    (searchId value : List Char) : Except FilterParseError (List T) :=
  if value = [] then .ok []
  else fromStrParts parseV decode searchId (splitChar '&' value)

end Common

/-- Mirrors `equal_filter.rs`: `EqualFilter<T>(Option<T>, Option<FilterId>)`. -/
abbrev EqualFilter (T : Type) : Type := Option T × Option FilterId

/-- Mirrors the `FromStrFilter<T>` impl for `EqualFilter<T>`: any operator
code is accepted, the value is kept, the stored id is a placeholder. -/
def EqualFilter.decode {T : Type} (_op : List Char) (v : T) :
    Except FilterParseError (EqualFilter T) :=
  .ok (some v, some (FilterId.Alone []))

/-- Mirrors `EqualFilter::from_id_value`: run the common extraction with the
identifier's real name, keep `.first()` of the result, pair it with the
given `FilterId`. -/
def EqualFilter.from_id_value {T : Type} (parseV : List Char → Option T)
    (searchId : FilterId) (value : List Char) :
    Except FilterParseError (EqualFilter T) :=
  match Common.from_str parseV EqualFilter.decode searchId.id value with
  | .error e => .error e
  | .ok l =>
    match l.head? with
    | some u => .ok (u.1, some searchId)
    | none => .ok (none, some searchId)

/-- Mirrors `EqualFilter::from_str`. -/
def EqualFilter.from_str {T : Type} (parseV : List Char → Option T)
    (searchId value : List Char) : Except FilterParseError (EqualFilter T) :=
  EqualFilter.from_id_value parseV (FilterId.Alone searchId) value

/-- Mirrors `number_filter.rs`: `NumberFilter<T>`. -/
inductive NumberFilter (T : Type)
  | Eq (v : T)
  | Ne (v : T)
  | Gt (v : T)
  | Lt (v : T)
  | Gte (v : T)
  | Lte (v : T)
deriving DecidableEq

/-- Mirrors the `FromStrFilter<T>` impl for `NumberFilter<T>`: the six
operator codes map 1:1 to variants, anything else is `UnknownFilter`. -/
def NumberFilter.from_str {T : Type} (id : List Char) (value : T) :
    Except FilterParseError (NumberFilter T) :=
  if id = ('e' :: ['q']) then .ok (.Eq value)
  else if id = ('n' :: ['e']) then .ok (.Ne value)
  else if id = ('g' :: ['t']) then .ok (.Gt value)
  else if id = ('l' :: ['t']) then .ok (.Lt value)
  else if id = ('g' :: ['t', 'e']) then .ok (.Gte value)
  else if id = ('l' :: ['t', 'e']) then .ok (.Lte value)
  else .error .UnknownFilter

/-- Mirrors `NumberFilters<T>(Vec<NumberFilter<T>>, Option<FilterId>)`. -/
abbrev NumberFilters (T : Type) : Type := List (NumberFilter T) × Option FilterId

/-- Mirrors `NumberFilters::from_id_value`: common extraction against the
identifier's real name (`FilterId::id`, not the alias `FilterId::key`). -/
def NumberFilters.from_id_value {T : Type} (parseV : List Char → Option T)
    (searchId : FilterId) (value : List Char) :
    Except FilterParseError (NumberFilters T) :=
  (Common.from_str parseV NumberFilter.from_str searchId.id value).map
    (fun x => (x, some searchId))

/-- Mirrors `NumberFilters::from_str`. -/
def NumberFilters.from_str {T : Type} (parseV : List Char → Option T)
    (searchId value : List Char) : Except FilterParseError (NumberFilters T) :=
  NumberFilters.from_id_value parseV (FilterId.Alone searchId) value

/-- Mirrors `order_by.rs`: `OrderBy`. -/
inductive OrderBy
  | Asc (fid : FilterId)
  | Desc (fid : FilterId)
deriving DecidableEq

/-- Mirrors the `FromStrFilter<String>` impl for `OrderBy`: the operator
code must be `asc` or `desc`; the value becomes a bare `FilterId`. -/
def OrderBy.decode (id : List Char) (value : List Char) :
    Except FilterParseError OrderBy :=
  if id = ('a' :: ['s', 'c']) then .ok (.Asc (FilterId.Alone value))
  else if id = ('d' :: ['e', 's', 'c']) then .ok (.Desc (FilterId.Alone value))
  else .error .UnknownFilter

/-- Mirrors `OrderBy::from_str`: extract against the fixed identifier
`order_by` and keep `.first()`. The value parser is the infallible
`String::from_str`. -/
def OrderBy.from_str (value : List Char) :
    Except FilterParseError (Option OrderBy) :=
  (Common.from_str some OrderBy.decode ("order_by".data) value).map List.head?

/-- Mirrors the re-scoping closure of `OrderBy::from_str_prefix`: only the
bare-identifier case is handled; the source marks the scoped cases
`unreachable!`, modelled here as `none`. -/
def OrderBy.rescope (pfx : List Char) : OrderBy → Option OrderBy
  | .Asc (.Alone v) => some (.Asc (FilterId.WithPrefix pfx v))
  | .Desc (.Alone v) => some (.Desc (FilterId.WithPrefix pfx v))
  | _ => none

/-- Mirrors `OrderBy::from_str_prefix`; the outer `Option` is `none` exactly
when the source would hit `unreachable!` (a panic). -/
def OrderBy.from_str_prefix (pfx value : List Char) :
    Option (Except FilterParseError (Option OrderBy)) :=
  match OrderBy.from_str value with
  | .error e => some (.error e)
  | .ok none => some (.ok none)
  | .ok (some x) => (OrderBy.rescope pfx x).map (fun y => .ok (some y))

namespace Limit

/-- Mirrors the `FromStrFilter<u64>` impl for `Limit`: the operator code is
ignored, the parsed value is kept. -/
def decode (_id : List Char) (v : Nat) : Except FilterParseError Nat := .ok v

/-- Mirrors `Limit::from_str`: extract against the fixed identifier `limit`
and keep `.first()`. -/
def from_str (value : List Char) : Except FilterParseError (Option Nat) :=
  (Common.from_str parseNat Limit.decode ("limit".data) value).map List.head?

end Limit

namespace Skip

/-- Mirrors the `FromStrFilter<u64>` impl for `Skip`. -/
def decode (_id : List Char) (v : Nat) : Except FilterParseError Nat := .ok v

/-- Mirrors `Skip::from_str`: extract against the fixed identifier `skip`
and keep `.first()`. -/
def from_str (value : List Char) : Except FilterParseError (Option Nat) :=
  (Common.from_str parseNat Skip.decode ("skip".data) value).map List.head?

end Skip

/-- Mirrors `query_filter.rs`: `FromQueryFilter<T>` (the `Limit`/`Skip`
newtypes are modelled by their `u64` payloads). -/
structure FromQueryFilter (T : Type) where
  inner : T
  order_by : Option OrderBy
  limit : Option Nat
  skip : Option Nat
deriving DecidableEq

/-- Step (1) of `FromQueryFilter::from_str`: parse `OrderBy` with the inner
type's declared scope when there is one. The outer `Option` is `none` when
the re-scoping would panic. -/
def FromQueryFilter.orderStep (fid : Option (List Char)) (value : List Char) :
    Option (Except FilterParseError (Option OrderBy)) :=
  match fid with
  | some pfx => OrderBy.from_str_prefix pfx value
  | none => some (OrderBy.from_str value)

/-- Mirrors `FromQueryFilter::from_str`, parametric in the inner type's
parse entry point (`T::from_str`) and declared scope (`T::filter_id`):
order_by, then limit, then skip, then inner, each aborting on error. -/
def FromQueryFilter.from_str {T : Type}
    (fid : Option (List Char))
    (innerParse : List Char → Except FilterParseError T)
    (value : List Char) : Option (Except FilterParseError (FromQueryFilter T)) :=
  (FromQueryFilter.orderStep fid value).map (fun obr =>
    match obr with
    | .error e => .error e
    | .ok ob =>
      match Limit.from_str value with
      | .error e => .error e
      | .ok l =>
        match Skip.from_str value with
        | .error e => .error e
        | .ok s =>
          match innerParse value with
          | .error e => .error e
          | .ok i => .ok ⟨i, ob, l, s⟩)

/-- The pair-recording decoder of the `MockFilter` used by the tests in
`common.rs`: it accepts every operator code and records `(code, value)`,
making the raw output of the Multi-Value Extractor observable. -/
def decodeRec (op : List Char) (v : Nat) : Except FilterParseError (List Char × Nat) :=
  .ok (op, v)

/-- An inner filter type parsing the single numeric field `age`, as the
`MockQuery` of the tests in `query_filter.rs` does. -/
def ageInner (q : List Char) : Except FilterParseError (NumberFilters Nat) :=
  NumberFilters.from_str parseNat ("age".data) q

/-- A segment on which the extraction loop raises `FilterStructure`: it
lacks `=`, or the regex finds no match in its key. -/
def structuralBad (part : List Char) : Bool :=
  match splitOnce '=' part with
  | none => true
  | some (key, _) => (captures key).isNone

/-- A segment that is structurally well formed but addressed to a field
other than `target`: it has `=`, its key matches the regex, and the
captured field name differs from `target`. -/
def wellFormedForeign (target part : List Char) : Bool :=
  match splitOnce '=' part with
  | none => false
  | some (key, _) =>
    match captures key with
    | none => false
    | some (fieldName, _, _) => fieldName ≠ target

/-- Modelled from the spec: the Token Grammar
`fieldName('['op']')?('['digits']')?` read as a FULL match of the whole
key (spec section 4.1), for comparison with the source's unanchored
regex search. -/
def tokenGrammarFull (l : List Char) : Bool :=
  match l with
  | [] => false
  | c :: _ =>
    isWordChar c &&
    (let rest1 := l.dropWhile isWordChar
     let (_, rest2) := bracketGroup Char.isLower rest1
     let (_, rest3) := bracketGroup Char.isDigit rest2
     rest3.isEmpty)

/-! Helper lemmas about the split and regex models. -/

theorem takeWhile_append_of_all {p : Char → Bool} {a : List Char} (b : List Char)
    (h : ∀ x ∈ a, p x = true) : (a ++ b).takeWhile p = a ++ b.takeWhile p := by
  induction a with
  | nil => simp
  | cons c a ih =>
    have ih' := ih (fun x hx => h x (by simp [hx]))
    simp [List.takeWhile_cons, h c (by simp), ih']

theorem dropWhile_append_of_all {p : Char → Bool} {a : List Char} (b : List Char)
    (h : ∀ x ∈ a, p x = true) : (a ++ b).dropWhile p = b.dropWhile p := by
  induction a with
  | nil => simp
  | cons c a ih =>
    have ih' := ih (fun x hx => h x (by simp [hx]))
    simp [List.dropWhile_cons, h c (by simp), ih']

theorem splitChar_ne_nil (sep : Char) (l : List Char) : splitChar sep l ≠ [] := by
  induction l with
  | nil => simp [splitChar]
  | cons c rest ih =>
    simp only [splitChar]
    split
    · simp
    · cases h : splitChar sep rest with
      | nil => exact absurd h ih
      | cons h t => simp

theorem splitChar_append (sep : Char) (a b : List Char) :
    splitChar sep (a ++ sep :: b) = splitChar sep a ++ splitChar sep b := by
  induction a with
  | nil => simp [splitChar]
  | cons c a ih =>
    by_cases hc : c = sep
    · simp [splitChar, hc, ih]
    · simp only [List.cons_append, splitChar, if_neg hc, List.append_eq, ih]
      cases h : splitChar sep a with
      | nil => exact absurd h (splitChar_ne_nil sep a)
      | cons h t => simp

theorem splitChar_no_sep {sep : Char} {a : List Char} (h : sep ∉ a) :
    splitChar sep a = [a] := by
  induction a with
  | nil => rfl
  | cons c a ih =>
    have hcs : ¬c = sep := by rintro rfl; exact h (List.mem_cons_self _ _)
    have ih' := ih (fun hm => h (List.mem_cons_of_mem c hm))
    simp [splitChar, hcs, ih']

theorem splitOnce_append {sep : Char} {a : List Char} (b : List Char) (h : sep ∉ a) :
    splitOnce sep (a ++ sep :: b) = some (a, b) := by
  induction a with
  | nil => simp [splitOnce]
  | cons c a ih =>
    have hcs : ¬c = sep := by rintro rfl; exact h (List.mem_cons_self _ _)
    have ih' := ih (fun hm => h (List.mem_cons_of_mem c hm))
    simp [splitOnce, hcs, ih']

theorem captures_word {a : List Char} (h : a ≠ [])
    (hw : ∀ x ∈ a, isWordChar x = true) : captures a = some (a, none, none) := by
  cases a with
  | nil => exact absurd rfl h
  | cons c rest =>
    have ht : rest.takeWhile isWordChar = rest := by
      rw [List.takeWhile_eq_self_iff]
      exact fun x hx => hw x (by simp [hx])
    have hd : rest.dropWhile isWordChar = [] := by
      rw [List.dropWhile_eq_nil_iff]
      exact fun x hx => hw x (by simp [hx])
    simp only [captures, if_pos (hw c (by simp)), ht, hd]
    rfl

theorem captures_word_eq_bracket {a : List Char} (h : a ≠ [])
    (hw : ∀ x ∈ a, isWordChar x = true) :
    captures (a ++ ('[' :: 'e' :: 'q' :: ']' :: [])) =
      some (a, some ('e' :: ['q']), none) := by
  cases a with
  | nil => exact absurd rfl h
  | cons c rest =>
    have hrw : ∀ x ∈ rest, isWordChar x = true := fun x hx => hw x (by simp [hx])
    have ht := takeWhile_append_of_all (p := isWordChar)
      ('[' :: 'e' :: 'q' :: ']' :: []) hrw
    have hd := dropWhile_append_of_all (p := isWordChar)
      ('[' :: 'e' :: 'q' :: ']' :: []) hrw
    have h1 : List.takeWhile isWordChar ('[' :: 'e' :: 'q' :: ']' :: []) = [] := by
      decide
    have h2 : List.dropWhile isWordChar ('[' :: 'e' :: 'q' :: ']' :: []) =
        '[' :: 'e' :: 'q' :: ']' :: [] := by decide
    have h3 : bracketGroup Char.isLower ('[' :: 'e' :: 'q' :: ']' :: []) =
        (some ('e' :: ['q']), []) := by decide
    have h4 : bracketGroup Char.isDigit ([] : List Char) = (none, []) := by decide
    simp only [List.cons_append, captures, if_pos (hw c (by simp)),
      List.append_eq, ht, hd, h1, h2, h3, h4]
    simp

theorem not_mem_of_pred {p : Char → Bool} {f : List Char} (c : Char)
    (hc : p c = false) (h : ∀ x ∈ f, p x = true) : c ∉ f := by
  intro hm
  rw [h c hm] at hc
  exact Bool.noConfusion hc

theorem parseNat_digits {v : List Char} {n : Nat} (h : parseNat v = some n) :
    ∀ c ∈ v, c.isDigit = true := by
  unfold parseNat at h
  split at h
  · exact absurd h (by simp)
  · split at h
    · next hall =>
        intro c hc
        have := List.all_eq_true.mp hall c hc
        simpa using this
    · exact absurd h (by simp)

/-! Lemmas about the extraction loop. -/

theorem processPart_self {V T : Type} {parseV : List Char → Option V}
    {decode : List Char → V → Except FilterParseError T}
    {f v : List Char} {n : V} {t : T}
    (hf : f ≠ []) (hw : ∀ x ∈ f, isWordChar x = true)
    (hv : parseV v = some n) (hd : decode ('e' :: ['q']) n = .ok t) :
    processPart parseV decode f (f ++ '=' :: v) = .ok (some t) := by
  have he : '=' ∉ f := not_mem_of_pred '=' (by decide) hw
  simp only [processPart, splitOnce_append v he, captures_word hf hw]
  simp [hv, hd]

theorem processPart_eq_bracket {V T : Type} {parseV : List Char → Option V}
    {decode : List Char → V → Except FilterParseError T}
    {f v : List Char} (target : List Char)
    (hf : f ≠ []) (hw : ∀ x ∈ f, isWordChar x = true) :
    processPart parseV decode target (f ++ '[' :: 'e' :: 'q' :: ']' :: '=' :: v) =
      processPart parseV decode target (f ++ '=' :: v) := by
  have he : '=' ∉ f := not_mem_of_pred '=' (by decide) hw
  have he2 : '=' ∉ f ++ ('[' :: 'e' :: 'q' :: ']' :: []) := by
    intro hm
    rcases List.mem_append.mp hm with h | h
    · exact he h
    · simp at h
  have hsplit : splitOnce '=' (f ++ '[' :: 'e' :: 'q' :: ']' :: '=' :: v) =
      some (f ++ ('[' :: 'e' :: 'q' :: ']' :: []), v) := by
    have := splitOnce_append (a := f ++ ('[' :: 'e' :: 'q' :: ']' :: [])) v he2
    simpa using this
  simp only [processPart, hsplit, captures_word_eq_bracket hf hw,
    splitOnce_append v he, captures_word hf hw]
  simp

theorem fromStrParts_append_ok {V T : Type} {parseV : List Char → Option V}
    {decode : List Char → V → Except FilterParseError T}
    {searchId : List Char} {a b : List (List Char)} {la lb : List T}
    (ha : fromStrParts parseV decode searchId a = .ok la)
    (hb : fromStrParts parseV decode searchId b = .ok lb) :
    fromStrParts parseV decode searchId (a ++ b) = .ok (la ++ lb) := by
  induction a generalizing la with
  | nil =>
    simp only [fromStrParts] at ha
    cases ha
    simpa using hb
  | cons p ps ih =>
    simp only [fromStrParts, List.cons_append, List.append_eq] at ha ⊢
    cases hp : processPart parseV decode searchId p with
    | error e => simp [hp] at ha
    | ok o =>
      simp only [hp] at ha ⊢
      cases o with
      | none => exact ih ha
      | some t =>
        cases hr : fromStrParts parseV decode searchId ps with
        | error e => simp [hr] at ha
        | ok rest =>
          simp only [hr] at ha
          cases ha
          simp [ih hr]

theorem processPart_skip {V T : Type} {parseV : List Char → Option V}
    {decode : List Char → V → Except FilterParseError T}
    {target part : List Char} (h : wellFormedForeign target part = true) :
    processPart parseV decode target part = .ok none := by
  unfold wellFormedForeign at h
  unfold processPart
  cases hs : splitOnce '=' part with
  | none => simp [hs] at h
  | some kv =>
    obtain ⟨key, rawVal⟩ := kv
    simp only [hs] at h ⊢
    cases hc : captures key with
    | none => simp [hc] at h
    | some cap =>
      obtain ⟨fieldName, op, idx⟩ := cap
      simp only [hc, decide_eq_true_eq] at h
      simp [hc, h]

theorem fromStrParts_skip {V T : Type} {parseV : List Char → Option V}
    {decode : List Char → V → Except FilterParseError T}
    {target : List Char} {parts : List (List Char)}
    (h : ∀ p ∈ parts, wellFormedForeign target p = true) :
    fromStrParts parseV decode target parts = .ok [] := by
  induction parts with
  | nil => rfl
  | cons p ps ih =>
    simp only [fromStrParts]
    rw [processPart_skip (h p (by simp))]
    exact ih (fun q hq => h q (by simp [hq]))

theorem processPart_structure {V T : Type} {parseV : List Char → Option V}
    {decode : List Char → V → Except FilterParseError T}
    {target part : List Char}
    (hd : ∀ op v, decode op v ≠ .error .FilterStructure)
    (h : processPart parseV decode target part = .error .FilterStructure) :
    structuralBad part = true := by
  unfold processPart at h
  unfold structuralBad
  cases hs : splitOnce '=' part with
  | none => simp [hs]
  | some kv =>
    obtain ⟨key, rawVal⟩ := kv
    simp only [hs] at h ⊢
    cases hc : captures key with
    | none => simp [hc]
    | some cap =>
      obtain ⟨fieldName, op, idx⟩ := cap
      simp only [hc] at h
      by_cases hm : fieldName = target
      · simp only [if_pos hm] at h
        cases hp : parseV rawVal with
        | none => simp [hp] at h
        | some v =>
          simp only [hp] at h
          cases hdv : decode (op.getD ('e' :: ['q'])) v with
          | error e =>
            simp only [hdv] at h
            cases h
            exact absurd hdv (hd _ _)
          | ok t => simp [hdv] at h
      · simp [if_neg hm] at h

theorem fromStrParts_structure {V T : Type} {parseV : List Char → Option V}
    {decode : List Char → V → Except FilterParseError T}
    {target : List Char} {parts : List (List Char)}
    (hd : ∀ op v, decode op v ≠ .error .FilterStructure)
    (h : fromStrParts parseV decode target parts = .error .FilterStructure) :
    ∃ p ∈ parts, structuralBad p = true := by
  induction parts with
  | nil => exact absurd h (by simp [fromStrParts])
  | cons p ps ih =>
    simp only [fromStrParts] at h
    cases hp : processPart parseV decode target p with
    | error e =>
      simp only [hp] at h
      cases h
      exact ⟨p, by simp, processPart_structure hd hp⟩
    | ok o =>
      simp only [hp] at h
      cases o with
      | none =>
        obtain ⟨q, hq, hb⟩ := ih h
        exact ⟨q, by simp [hq], hb⟩
      | some t =>
        cases hr : fromStrParts parseV decode target ps with
        | error e =>
          simp only [hr] at h
          cases h
          obtain ⟨q, hq, hb⟩ := ih hr
          exact ⟨q, by simp [hq], hb⟩
        | ok rest => simp [hr] at h

theorem processPart_some {V T : Type} {parseV : List Char → Option V}
    {decode : List Char → V → Except FilterParseError T}
    {target part : List Char} {t : T}
    (h : processPart parseV decode target part = .ok (some t)) :
    ∃ op v, decode op v = .ok t := by
  unfold processPart at h
  cases hs : splitOnce '=' part with
  | none => simp [hs] at h
  | some kv =>
    obtain ⟨key, rawVal⟩ := kv
    simp only [hs] at h
    cases hc : captures key with
    | none => simp [hc] at h
    | some cap =>
      obtain ⟨fieldName, op, idx⟩ := cap
      simp only [hc] at h
      by_cases hm : fieldName = target
      · simp only [if_pos hm] at h
        cases hp : parseV rawVal with
        | none => simp [hp] at h
        | some v =>
          simp only [hp] at h
          cases hdv : decode (op.getD ('e' :: ['q'])) v with
          | error e => simp [hdv] at h
          | ok u =>
            simp only [hdv] at h
            cases h
            exact ⟨_, _, hdv⟩
      · simp [if_neg hm] at h

theorem fromStrParts_mem {V T : Type} {parseV : List Char → Option V}
    {decode : List Char → V → Except FilterParseError T}
    {target : List Char} {parts : List (List Char)} {l : List T}
    (h : fromStrParts parseV decode target parts = .ok l) :
    ∀ t ∈ l, ∃ op v, decode op v = .ok t := by
  induction parts generalizing l with
  | nil =>
    simp only [fromStrParts] at h
    cases h
    simp
  | cons p ps ih =>
    simp only [fromStrParts] at h
    cases hp : processPart parseV decode target p with
    | error e => simp [hp] at h
    | ok o =>
      simp only [hp] at h
      cases o with
      | none => exact ih h
      | some t =>
        cases hr : fromStrParts parseV decode target ps with
        | error e => simp [hr] at h
        | ok rest =>
          simp only [hr] at h
          cases h
          intro u hu
          rcases List.mem_cons.mp hu with rfl | hu2
          · exact processPart_some hp
          · exact ih hr u hu2

theorem Common.from_str_append {V T : Type} {parseV : List Char → Option V}
    {decode : List Char → V → Except FilterParseError T}
    {target q1 q2 : List Char} {l1 l2 : List T}
    (h1 : q1 ≠ []) (h2 : q2 ≠ [])
    (ha : Common.from_str parseV decode target q1 = .ok l1)
    (hb : Common.from_str parseV decode target q2 = .ok l2) :
    Common.from_str parseV decode target (q1 ++ '&' :: q2) = .ok (l1 ++ l2) := by
  unfold Common.from_str at ha hb ⊢
  rw [if_neg h1] at ha
  rw [if_neg h2] at hb
  rw [if_neg (by simp), splitChar_append]
  exact fromStrParts_append_ok ha hb

theorem Common.from_str_mem {V T : Type} {parseV : List Char → Option V}
    {decode : List Char → V → Except FilterParseError T}
    {target value : List Char} {l : List T}
    (h : Common.from_str parseV decode target value = .ok l) :
    ∀ t ∈ l, ∃ op v, decode op v = .ok t := by
  unfold Common.from_str at h
  split at h
  · cases h; simp
  · exact fromStrParts_mem h

end Filtrum

namespace Filtrum

/-- C7: extraction preserves the left-to-right appearance order of matching
pairs and keeps duplicate operator codes without deduplication: the example
query yields `[(gte,1),(lt,9)]` in that order, duplicated `gte` pairs both
appear, and in general extraction distributes over `&`-concatenation of
query strings, appending the two result lists in order. -/
theorem c7_order_preserved :
    Common.from_str parseNat decodeRec ("age".data) ("age[gte]=1&age[lt]=9".data) =
      .ok [(('g' :: ['t', 'e']), 1), (('l' :: ['t']), 9)] ∧
    Common.from_str parseNat decodeRec ("age".data) ("age[gte]=1&age[gte]=2".data) =
      .ok [(('g' :: ['t', 'e']), 1), (('g' :: ['t', 'e']), 2)] ∧
    ∀ (V T : Type) (parseV : List Char → Option V)
      (decode : List Char → V → Except FilterParseError T)
      (target q1 q2 : List Char) (l1 l2 : List T),
      q1 ≠ [] → q2 ≠ [] →
      Common.from_str parseV decode target q1 = .ok l1 →
      Common.from_str parseV decode target q2 = .ok l2 →
      Common.from_str parseV decode target (q1 ++ '&' :: q2) = .ok (l1 ++ l2) := by
  refine ⟨by decide, by decide, ?_⟩
  intro V T parseV decode target q1 q2 l1 l2 h1 h2 ha hb
  exact Common.from_str_append h1 h2 ha hb

/-- C7 witness: the general conjunct applied at two concrete one-pair
queries, rebuilding the ordered two-pair result. -/
theorem c7_order_preserved_witness :
    Common.from_str parseNat decodeRec ("age".data)
      (("age[gte]=1".data) ++ '&' :: ("age[lt]=9".data)) =
      .ok ([(('g' :: ['t', 'e']), 1)] ++ [(('l' :: ['t']), 9)]) :=
  c7_order_preserved.2.2 Nat (List Char × Nat) parseNat decodeRec
    ("age".data) ("age[gte]=1".data) ("age[lt]=9".data) _ _
    (by decide) (by decide) (by decide) (by decide)

/-- C8: a pair without an operator segment extracts exactly like the same
pair with an explicit `[eq]` segment, for every target identifier, decoder
and value parser: the operator code defaults to `eq` when absent. -/
theorem c8_eq_default :
    ∀ (V T : Type) (parseV : List Char → Option V)
      (decode : List Char → V → Except FilterParseError T)
      (target f v : List Char),
      f ≠ [] → (∀ x ∈ f, isWordChar x = true) → '&' ∉ v →
      Common.from_str parseV decode target (f ++ '=' :: v) =
        Common.from_str parseV decode target (f ++ '[' :: 'e' :: 'q' :: ']' :: '=' :: v) := by
  intro V T parseV decode target f v hf hw hv
  have haf : '&' ∉ f := not_mem_of_pred '&' (by decide) hw
  have hap1 : '&' ∉ f ++ '=' :: v := by
    intro hm
    rcases List.mem_append.mp hm with h | h
    · exact haf h
    · rcases List.mem_cons.mp h with h | h
      · exact absurd h (by decide)
      · exact hv h
  have hap2 : '&' ∉ f ++ '[' :: 'e' :: 'q' :: ']' :: '=' :: v := by
    intro hm
    rcases List.mem_append.mp hm with h | h
    · exact haf h
    · simp only [List.mem_cons] at h
      rcases h with h | h | h | h | h | h
      all_goals first
        | exact absurd h (by decide)
        | exact hv (by simpa using h)
  have hpp : processPart parseV decode target (f ++ '[' :: 'e' :: 'q' :: ']' :: '=' :: v) =
      processPart parseV decode target (f ++ '=' :: v) :=
    processPart_eq_bracket target hf hw
  unfold Common.from_str
  rw [if_neg (by simp), if_neg (by simp)]
  rw [splitChar_no_sep hap1, splitChar_no_sep hap2]
  simp only [fromStrParts, hpp]

/-- C8 witness: `age=10` and `age[eq]=10` extract identically against the
target `age` with the numeric pair-recording decoder. -/
theorem c8_eq_default_witness :
    Common.from_str parseNat decodeRec ("age".data) (("age".data) ++ '=' :: ("10".data)) =
      Common.from_str parseNat decodeRec ("age".data)
        (("age".data) ++ '[' :: 'e' :: 'q' :: ']' :: '=' :: ("10".data)) :=
  c8_eq_default Nat (List Char × Nat) parseNat decodeRec
    ("age".data) ("age".data) ("10".data) (by decide) (by decide) (by decide)

/-- C9: the numeric decode step accepts exactly the six codes eq, ne, gt,
lt, gte, lte, mapping each 1:1 to its variant, fails with UnknownFilter on
every other code, and `NumberFilters::from_str("age","age[near]=1")` fails
with UnknownFilter. -/
theorem c9_number_codes :
    (∀ (T : Type) (v : T),
      NumberFilter.from_str ('e' :: ['q']) v = .ok (.Eq v) ∧
      NumberFilter.from_str ('n' :: ['e']) v = .ok (.Ne v) ∧
      NumberFilter.from_str ('g' :: ['t']) v = .ok (.Gt v) ∧
      NumberFilter.from_str ('l' :: ['t']) v = .ok (.Lt v) ∧
      NumberFilter.from_str ('g' :: ['t', 'e']) v = .ok (.Gte v) ∧
      NumberFilter.from_str ('l' :: ['t', 'e']) v = .ok (.Lte v)) ∧
    (∀ (T : Type) (v : T) (code : List Char),
      code ∉ [('e' :: ['q']), ('n' :: ['e']), ('g' :: ['t']), ('l' :: ['t']),
        ('g' :: ['t', 'e']), ('l' :: ['t', 'e'])] →
      NumberFilter.from_str code v = .error .UnknownFilter) ∧
    NumberFilters.from_str parseNat ("age".data) ("age[near]=1".data) =
      .error .UnknownFilter := by
  refine ⟨?_, ?_, by decide⟩
  · intro T v
    refine ⟨by simp [NumberFilter.from_str], by simp [NumberFilter.from_str],
      by simp [NumberFilter.from_str], by simp [NumberFilter.from_str],
      by simp [NumberFilter.from_str], by simp [NumberFilter.from_str]⟩
  · intro T v code hcode
    simp only [List.mem_cons, List.mem_singleton] at hcode
    push_neg at hcode
    obtain ⟨h1, h2, h3, h4, h5, h6⟩ := hcode
    simp [NumberFilter.from_str, h1, h2, h3, h4, h5, h6]

/-- C9 witness: the unknown-code conjunct applied to the code `near`. -/
theorem c9_number_codes_witness :
    NumberFilter.from_str ("near".data) (1 : Nat) = .error .UnknownFilter :=
  c9_number_codes.2.1 Nat 1 ("near".data) (by decide)

/-- C1 counterexample: `EqualFilter::from_str("age","age=1&age=2")` keeps
the FIRST occurrence, value 1, not the last occurrence, value 2, as the
claim states. -/
theorem c1_counterexample :
    (EqualFilter.from_str parseNat ("age".data) ("age=1&age=2".data)).map Prod.fst =
      .ok (some 1) ∧
    (Except.ok (some 1) : Except FilterParseError (Option Nat)) ≠ .ok (some 2) := by
  exact ⟨by decide, by decide⟩

/-- C1 amended: for every query string in which the same target field
appears more than once, EqualityFilter parsing retains only the FIRST
matching occurrence; earlier occurrences win and later duplicates are
dropped: `EqualFilter::from_str("age","age=1&age=2")` yields the value 1. -/
theorem c1_first_wins :
    ∀ (f v1 v2 : List Char) (n1 n2 : Nat),
      f ≠ [] → (∀ x ∈ f, isWordChar x = true) →
      parseNat v1 = some n1 → parseNat v2 = some n2 →
      EqualFilter.from_str parseNat f
        ((f ++ '=' :: v1) ++ '&' :: (f ++ '=' :: v2)) =
        .ok (some n1, some (FilterId.Alone f)) := by
  intro f v1 v2 n1 n2 hf hw hv1 hv2
  have hd1 := parseNat_digits hv1
  have hd2 := parseNat_digits hv2
  have haf : '&' ∉ f := not_mem_of_pred '&' (by decide) hw
  have hav1 : '&' ∉ v1 := not_mem_of_pred '&' (by decide) hd1
  have hav2 : '&' ∉ v2 := not_mem_of_pred '&' (by decide) hd2
  have hap1 : '&' ∉ f ++ '=' :: v1 := by
    intro hm
    rcases List.mem_append.mp hm with h | h
    · exact haf h
    · rcases List.mem_cons.mp h with h | h
      · exact absurd h (by decide)
      · exact hav1 h
  have hap2 : '&' ∉ f ++ '=' :: v2 := by
    intro hm
    rcases List.mem_append.mp hm with h | h
    · exact haf h
    · rcases List.mem_cons.mp h with h | h
      · exact absurd h (by decide)
      · exact hav2 h
  have h1 : processPart parseNat EqualFilter.decode f (f ++ '=' :: v1) =
      .ok (some (some n1, some (FilterId.Alone []))) :=
    processPart_self hf hw hv1 rfl
  have h2 : processPart parseNat EqualFilter.decode f (f ++ '=' :: v2) =
      .ok (some (some n2, some (FilterId.Alone []))) :=
    processPart_self hf hw hv2 rfl
  unfold EqualFilter.from_str EqualFilter.from_id_value Common.from_str
  rw [if_neg (by simp)]
  rw [splitChar_append, splitChar_no_sep hap1, splitChar_no_sep hap2]
  simp [fromStrParts, h1, h2, FilterId.id]

/-- C1 witness: the amended first-wins statement applied to the claim's
example query `age=1&age=2`, yielding value 1. -/
theorem c1_first_wins_witness :
    EqualFilter.from_str parseNat ("age".data)
      ((("age".data) ++ '=' :: ("1".data)) ++ '&' :: (("age".data) ++ '=' :: ("2".data))) =
      .ok (some 1, some (FilterId.Alone ("age".data))) :=
  c1_first_wins ("age".data) ("1".data) ("2".data) 1 2
    (by decide) (by decide) (by decide) (by decide)

/-- C2 counterexample: a field with real name `name`, scope `users` and
public alias `n` does NOT match query pairs keyed `n`; it matches pairs
keyed by the real name `name`, contradicting the claim that the alias is
the query key. -/
theorem c2_counterexample :
    NumberFilters.from_id_value parseNat
      (FilterId.WithPrefixAndAlias ("users".data) ("name".data) ("n".data))
      ("n[eq]=5".data) =
      .ok ([], some (FilterId.WithPrefixAndAlias ("users".data) ("name".data) ("n".data))) ∧
    NumberFilters.from_id_value parseNat
      (FilterId.WithPrefixAndAlias ("users".data) ("name".data) ("n".data))
      ("name[eq]=5".data) =
      .ok ([NumberFilter.Eq 5],
        some (FilterId.WithPrefixAndAlias ("users".data) ("name".data) ("n".data))) := by
  exact ⟨by decide, by decide⟩

/-- C2 amended: for a field declared with a public alias
(FilterId::WithPrefixAndAlias), parsing locates the field's pairs via the
REAL field name (`FilterId::id`), exactly as for a bare identifier; the
alias is only exposed through `FilterId::key`, the emission name consumed
by the SQL bridge. -/
theorem c2_lookup_by_real_name :
    ∀ (V : Type) (parseV : List Char → Option V) (p n a q : List Char),
      (NumberFilters.from_id_value parseV (FilterId.WithPrefixAndAlias p n a) q).map
          Prod.fst =
        (NumberFilters.from_id_value parseV (FilterId.Alone n) q).map Prod.fst ∧
      FilterId.key (FilterId.WithPrefixAndAlias p n a) = a ∧
      FilterId.id (FilterId.WithPrefixAndAlias p n a) = n := by
  intro V parseV p n a q
  refine ⟨?_, rfl, rfl⟩
  unfold NumberFilters.from_id_value
  cases h : Common.from_str parseV NumberFilter.from_str
      (FilterId.id (FilterId.WithPrefixAndAlias p n a)) q with
  | error e => simp [FilterId.id] at h ⊢; simp [h, Except.map]
  | ok l => simp [FilterId.id] at h ⊢; simp [h, Except.map]

/-- C3 counterexample: against target `age`, the query `foo` holds no pair
whose field name is `age` (its only key's field name is `foo`), yet
extraction fails with FilterStructure instead of returning an empty
sequence: the segment lacks `=`, and missing `=` aborts even segments
addressed to no field. -/
theorem c3_counterexample :
    captures ("foo".data) = some ("foo".data, none, none) ∧
    ("foo".data ≠ ("age".data)) ∧
    Common.from_str parseNat decodeRec ("age".data) ("foo".data) =
      .error .FilterStructure := by
  exact ⟨by decide, by decide, by decide⟩

/-- C3 amended: extraction returns Ok with an empty sequence whenever every
`&`-segment of the query is structurally well formed (has `=`, key matched
by the regex) and addressed to a field other than the target; malformed
segments abort the parse even when they are addressed to no field. -/
theorem c3_foreign_fields_ignored :
    ∀ (V T : Type) (parseV : List Char → Option V)
      (decode : List Char → V → Except FilterParseError T)
      (target q : List Char),
      (∀ p ∈ splitChar '&' q, wellFormedForeign target p = true) →
      Common.from_str parseV decode target q = .ok [] := by
  intro V T parseV decode target q h
  unfold Common.from_str
  split
  · rfl
  · exact fromStrParts_skip h

/-- C3 witness: the amended statement applied to target `age` and query
`height=20`, a well-formed pair addressed to another field. -/
theorem c3_foreign_fields_ignored_witness :
    (∀ p ∈ splitChar '&' ("height=20".data),
      wellFormedForeign ("age".data) p = true) ∧
    Common.from_str parseNat decodeRec ("age".data) ("height=20".data) = .ok [] :=
  ⟨by decide, c3_foreign_fields_ignored Nat (List Char × Nat) parseNat decodeRec
    ("age".data) ("height=20".data) (by decide)⟩

/-- C5 counterexample: the key `age!` does not match the Token Grammar
`fieldName('['op']')?('['digits']')?` as a full match, yet extraction of
`age!=5` against target `age` succeeds with `[(eq,5)]` instead of failing
with FilterStructure: the source applies the regex unanchored, so the
leading word run `age` is taken as the field name. -/
theorem c5_counterexample :
    tokenGrammarFull ("age!".data) = false ∧
    Common.from_str parseNat decodeRec ("age".data) ("age!=5".data) =
      .ok [(('e' :: ['q']), 5)] := by
  exact ⟨by decide, by decide⟩

/-- C5 amended: extraction fails with FilterStructure only on a pair that
lacks `=` or whose key contains no word character at all (the regex is
matched unanchored, so any key containing a word character matches and its
first word run becomes the field name); a bare segment `age` (no `=`)
aborts with FilterStructure, while the grammar-violating key `age!` parses
successfully. -/
theorem c5_structural_errors :
    (∀ (V T : Type) (parseV : List Char → Option V)
      (decode : List Char → V → Except FilterParseError T)
      (target q : List Char),
      (∀ op v, decode op v ≠ .error .FilterStructure) →
      Common.from_str parseV decode target q = .error .FilterStructure →
      ∃ p ∈ splitChar '&' q, structuralBad p = true) ∧
    Common.from_str parseNat decodeRec ("age".data) ("age".data) =
      .error .FilterStructure ∧
    Common.from_str parseNat decodeRec ("age".data) ("age!=5".data) =
      .ok [(('e' :: ['q']), 5)] := by
  refine ⟨?_, by decide, by decide⟩
  intro V T parseV decode target q hd h
  unfold Common.from_str at h
  split at h
  · exact absurd h (by simp)
  · exact fromStrParts_structure hd h

/-- C5 witness: the general conjunct applied to the bare segment `age`,
exhibiting the structurally bad part. -/
theorem c5_structural_errors_witness :
    ∃ p ∈ splitChar '&' ("age".data), structuralBad p = true :=
  c5_structural_errors.1 Nat (List Char × Nat) parseNat decodeRec
    ("age".data) ("age".data) (fun op v => by simp [decodeRec]) (by decide)

/-- C6 counterexample: a second occurrence of the reserved directive
`limit` is not ignored: `limit=1&limit=x` aborts with a value error, while
`limit=1` alone parses to limit 1, so the additional occurrence does
affect the result. -/
theorem c6_counterexample :
    Limit.from_str ("limit=1&limit=x".data) = .error .Value ∧
    Limit.from_str ("limit=1".data) = .ok (some 1) := by
  exact ⟨by decide, by decide⟩

/-- C6 amended: each reserved directive extracts against its fixed
identifier and keeps only the first extracted pair; additional occurrences
later in the query string are ignored PROVIDED they themselves extract
without error (a malformed later occurrence still aborts the parse):
appending further successfully-extracting text leaves the kept pair
unchanged, for order_by, limit and skip alike. -/
theorem c6_first_pair_kept :
    (∀ (q1 q2 : List Char) (x : Nat),
      q1 ≠ [] → q2 ≠ [] →
      Limit.from_str q1 = .ok (some x) →
      (∃ l2, Common.from_str parseNat Limit.decode ("limit".data) q2 = .ok l2) →
      Limit.from_str (q1 ++ '&' :: q2) = .ok (some x)) ∧
    (∀ (q1 q2 : List Char) (x : Nat),
      q1 ≠ [] → q2 ≠ [] →
      Skip.from_str q1 = .ok (some x) →
      (∃ l2, Common.from_str parseNat Skip.decode ("skip".data) q2 = .ok l2) →
      Skip.from_str (q1 ++ '&' :: q2) = .ok (some x)) ∧
    (∀ (q1 q2 : List Char) (x : OrderBy),
      q1 ≠ [] → q2 ≠ [] →
      OrderBy.from_str q1 = .ok (some x) →
      (∃ l2, Common.from_str some OrderBy.decode ("order_by".data) q2 = .ok l2) →
      OrderBy.from_str (q1 ++ '&' :: q2) = .ok (some x)) := by
  refine ⟨?_, ?_, ?_⟩
  · intro q1 q2 x h1 h2 ha hb
    obtain ⟨l2, hb⟩ := hb
    unfold Limit.from_str at ha ⊢
    cases hc : Common.from_str parseNat Limit.decode ("limit".data) q1 with
    | error e => simp [hc, Except.map] at ha
    | ok l1 =>
      simp only [hc, Except.map] at ha
      cases l1 with
      | nil => simp [List.head?] at ha
      | cons a t =>
        simp [List.head?] at ha
        rw [Common.from_str_append h1 h2 hc hb]
        simp [Except.map, List.head?, ha]
  · intro q1 q2 x h1 h2 ha hb
    obtain ⟨l2, hb⟩ := hb
    unfold Skip.from_str at ha ⊢
    cases hc : Common.from_str parseNat Skip.decode ("skip".data) q1 with
    | error e => simp [hc, Except.map] at ha
    | ok l1 =>
      simp only [hc, Except.map] at ha
      cases l1 with
      | nil => simp [List.head?] at ha
      | cons a t =>
        simp [List.head?] at ha
        rw [Common.from_str_append h1 h2 hc hb]
        simp [Except.map, List.head?, ha]
  · intro q1 q2 x h1 h2 ha hb
    obtain ⟨l2, hb⟩ := hb
    unfold OrderBy.from_str at ha ⊢
    cases hc : Common.from_str some OrderBy.decode ("order_by".data) q1 with
    | error e => simp [hc, Except.map] at ha
    | ok l1 =>
      simp only [hc, Except.map] at ha
      cases l1 with
      | nil => simp [List.head?] at ha
      | cons a t =>
        simp [List.head?] at ha
        rw [Common.from_str_append h1 h2 hc hb]
        simp [Except.map, List.head?, ha]

/-- C6 witness: the limit conjunct applied to `limit=1&limit=9`, where the
well-formed second occurrence is ignored and the first pair is kept. -/
theorem c6_first_pair_kept_witness :
    Limit.from_str (("limit=1".data) ++ '&' :: ("limit=9".data)) = .ok (some 1) :=
  c6_first_pair_kept.1 ("limit=1".data) ("limit=9".data) 1
    (by decide) (by decide) (by decide) ⟨[9], by decide⟩

/-- C4 counterexample: with an inner type parsing the numeric field `age`,
the query `age[bad]=1&limit=x` makes the composed parse fail with the
limit step's Value error, although the first error in left-to-right scan
order of the input string is the UnknownFilter error of the earlier
segment `age[bad]=1` (as the inner parse of that prefix shows): errors
surface in step order, not in input-string order. -/
theorem c4_counterexample :
    FromQueryFilter.from_str none ageInner ("age[bad]=1&limit=x".data) =
      some (.error .Value) ∧
    ageInner ("age[bad]=1".data) = .error .UnknownFilter ∧
    FilterParseError.Value ≠ FilterParseError.UnknownFilter := by
  exact ⟨by decide, by decide, by decide⟩

/-- C4 amended: the composed parse either parses completely or fails with
the error of the FIRST FAILING STEP in the fixed step order order_by,
limit, skip, inner (each step rescanning the whole input); failure of any
step aborts the whole operation and surfaces that step's error. -/
theorem c4_step_order_errors :
    ∀ (T : Type) (innerParse : List Char → Except FilterParseError T)
      (fid : Option (List Char)) (value : List Char),
      (∀ e, FromQueryFilter.orderStep fid value = some (.error e) →
        FromQueryFilter.from_str fid innerParse value = some (.error e)) ∧
      (∀ ob e, FromQueryFilter.orderStep fid value = some (.ok ob) →
        Limit.from_str value = .error e →
        FromQueryFilter.from_str fid innerParse value = some (.error e)) ∧
      (∀ ob l e, FromQueryFilter.orderStep fid value = some (.ok ob) →
        Limit.from_str value = .ok l →
        Skip.from_str value = .error e →
        FromQueryFilter.from_str fid innerParse value = some (.error e)) ∧
      (∀ ob l s e, FromQueryFilter.orderStep fid value = some (.ok ob) →
        Limit.from_str value = .ok l →
        Skip.from_str value = .ok s →
        innerParse value = .error e →
        FromQueryFilter.from_str fid innerParse value = some (.error e)) ∧
      (∀ ob l s i, FromQueryFilter.orderStep fid value = some (.ok ob) →
        Limit.from_str value = .ok l →
        Skip.from_str value = .ok s →
        innerParse value = .ok i →
        FromQueryFilter.from_str fid innerParse value = some (.ok ⟨i, ob, l, s⟩)) := by
  intro T innerParse fid value
  refine ⟨?_, ?_, ?_, ?_, ?_⟩
  · intro e ho
    unfold FromQueryFilter.from_str
    simp [ho]
  · intro ob e ho hl
    unfold FromQueryFilter.from_str
    simp [ho, hl]
  · intro ob l e ho hl hs
    unfold FromQueryFilter.from_str
    simp [ho, hl, hs]
  · intro ob l s e ho hl hs hi
    unfold FromQueryFilter.from_str
    simp [ho, hl, hs, hi]
  · intro ob l s i ho hl hs hi
    unfold FromQueryFilter.from_str
    simp [ho, hl, hs, hi]

/-- C4 witness: the limit conjunct applied to the query `limit=x`, whose
limit step fails with a Value error that the composed parse surfaces. -/
theorem c4_step_order_errors_witness :
    FromQueryFilter.from_str none (fun _ => Except.ok (0 : Nat)) ("limit=x".data) =
      some (.error .Value) :=
  (c4_step_order_errors Nat (fun _ => Except.ok 0) none ("limit=x".data)).2.1
    none .Value (by decide) (by decide)

/-- C10: re-scoping a freshly parsed order directive never reaches the
source's `unreachable!` branch: `OrderBy::from_str_prefix` is total (the
panic marker `none` is never produced), because every directive built by
`OrderBy::from_str` carries a bare `FilterId::Alone` identifier. -/
theorem c10_from_str_prefix_total :
    ∀ (pfx value : List Char),
      (OrderBy.from_str_prefix pfx value).isSome = true := by
  intro pfx value
  unfold OrderBy.from_str_prefix
  cases h : OrderBy.from_str value with
  | error e => simp
  | ok o =>
    cases o with
    | none => simp
    | some x =>
      have hx : ∃ op v, OrderBy.decode op v = .ok x := by
        unfold OrderBy.from_str at h
        cases hc : Common.from_str some OrderBy.decode ("order_by".data) value with
        | error e => simp [hc, Except.map] at h
        | ok l =>
          simp only [hc, Except.map] at h
          have hl : l.head? = some x := by
            cases l with
            | nil => simp at h
            | cons a t => simpa using h
          have hmem : x ∈ l := by
            cases l with
            | nil => simp at hl
            | cons a t =>
              simp only [List.head?] at hl
              cases hl
              simp
          exact Common.from_str_mem hc x hmem
      obtain ⟨op, v, hdec⟩ := hx
      unfold OrderBy.decode at hdec
      split at hdec
      · cases hdec
        simp [OrderBy.rescope]
      · split at hdec
        · cases hdec
          simp [OrderBy.rescope]
        · exact absurd hdec (by simp)

end Filtrum
